import Mathlib

/-!
# clevercloud-exporter: the deployment collector

A shallow embedding of `collector/summary.go` (package `collector`) and of the
library functions it calls, followed by theorems about what one call of
`DeploymentCollector.Collect` sends on the metric channel and hands to the logger.

Conventions of the embedding.

* A Go `float64` is a value of `F64`, an executable model of IEEE-754 binary64
  with round-to-nearest, ties-to-even. Go's `+` on `float64` is `F64.add`, the
  conversion `float64(n)` of an integer is `F64.ofInt`.
* A call that can panic returns `Option`; `none` is the panic.
* The channel `ch` and the logger are an explicit state `Out`: the metrics sent so
  far and the values passed to `logrus.Error` so far, both in program order.
* The remote API is a value of `Client`: what each of the four endpoints answers
  during the scrape.
* A Go `map` that is only read is a lookup function; the map built by
  `lo.CountValuesBy` is an association list with distinct keys. Go leaves the order in
  which `range` visits a map unspecified: it is a parameter `RangeOrder` of `Collect`,
  any rearrangement of the entries, and the theorems hold for every such order.
-/

namespace collector

/-! ## binary floating point -/

/-- Auxiliary for `bitLen`: structural recursion on a fuel argument. -/
def bitLenAux : Nat → Nat → Nat
  | 0, _ => 0
  | f + 1, n => if n = 0 then 0 else bitLenAux f (n / 2) + 1

/-- The number of binary digits of `n` (`0` for `n = 0`). -/
def bitLen (n : Nat) : Nat := bitLenAux n n

/-- A binary floating-point datum: the number `± m * 2 ^ e`, an infinity, or NaN.
Values produced by `roundTo` are in canonical form: either `m = 0`, `e = 0` and the
sign is positive, or `2 ^ (prec - 1) ≤ m < 2 ^ prec`, or `m < 2 ^ (prec - 1)` and
`e = emin`. The sign of zero is not tracked: an accumulation that starts at `+0`,
as `lo.SumBy` does, never produces `-0`, and adding `-0` acts as adding `+0`. -/
inductive F64 where
  | finite (neg : Bool) (m : Nat) (e : Int)
  | inf (neg : Bool)
  | nan
deriving DecidableEq, Repr

namespace F64

/-- The floating-point zero, Go's `var sum float64 = 0`. -/
def zero : F64 := finite false 0 0

/-- The datum nearest to `± num / den` in the format with `prec` significant bits,
least exponent `emin` and greatest exponent `emax` (exponents of the last place),
ties to even, overflow to infinity. -/
def roundTo (prec : Nat) (emin emax : Int) (neg : Bool) (num den : Nat) : F64 :=
  if den = 0 then nan
  else if num = 0 then zero
  else
    let k := bitLen den
    let l : Int := (bitLen (num * 2 ^ k / den) : Int) - (k : Int)
    let q : Int := max (l - (prec : Int)) emin
    let n := if 0 ≤ q then num else num * 2 ^ (-q).toNat
    let d := if 0 ≤ q then den * 2 ^ q.toNat else den
    let t := n / d
    let r := n % d
    let m := if d < 2 * r ∨ (2 * r = d ∧ t % 2 = 1) then t + 1 else t
    if m = 0 then zero
    else
      let m1 := if m = 2 ^ prec then 2 ^ (prec - 1) else m
      let q1 := if m = 2 ^ prec then q + 1 else q
      if emax < q1 then inf neg else finite neg m1 q1

/-- Rounding to binary64: 53 significant bits, last-place exponents from `-1074` to
`971`. `round false num den` is what `strconv.ParseFloat(s, 64)` returns for a
decimal `s` denoting `num / den`. -/
def round (neg : Bool) (num den : Nat) : F64 := roundTo 53 (-1074) 971 neg num den

/-- Rounding to binary32 followed by the (exact) conversion `float64(x)`. -/
def round32 (neg : Bool) (num den : Nat) : F64 :=
  match roundTo 24 (-149) 104 neg num den with
  | finite s m e => if 0 ≤ e then round s (m * 2 ^ e.toNat) 1 else round s m (2 ^ (-e).toNat)
  | x => x

/-- Go's `float64(n)` for an integer `n`. -/
def ofInt (n : Int) : F64 := round (decide (n < 0)) n.natAbs 1

/-- The signed significand of a finite datum. -/
def signed (neg : Bool) (m : Nat) : Int := if neg then -(m : Int) else (m : Int)

/-- Go's `x + y` on `float64`: the exact sum, rounded. -/
def add : F64 → F64 → F64
  | nan, _ => nan
  | _, nan => nan
  | inf a, inf b => if a = b then inf a else nan
  | inf a, finite _ _ _ => inf a
  | finite _ _ _, inf b => inf b
  | finite s1 m1 e1, finite s2 m2 e2 =>
    let e := min e1 e2
    let s : Int := signed s1 m1 * 2 ^ (e1 - e).toNat + signed s2 m2 * 2 ^ (e2 - e).toNat
    if 0 ≤ e then round (decide (s < 0)) (s.natAbs * 2 ^ e.toNat) 1
    else round (decide (s < 0)) s.natAbs (2 ^ (-e).toNat)

/-- The rational number denoted by a finite datum (`0` for the others). -/
def toRat : F64 → ℚ
  | finite neg m e => (if neg then -1 else 1) * (m : ℚ) * (2 : ℚ) ^ e
  | _ => 0

end F64

/-! ## the provider's data (package `models`) -/

/-- An organisation as listed by `organisation.List`; the fields `Collect` reads. -/
structure Organisation where
  ID : String
  Name : String
deriving DecidableEq, Repr

/-- The `Instance` member of an application; `Type_` is the Go field `Type`. -/
structure ApplicationInstance where
  Type_ : String
deriving DecidableEq, Repr

/-- An application as listed by `organisation.ListApplications`. -/
structure Application where
  ID : String
  Name : String
  State : String
  Zone : String
  Archived : Bool
  Instance : ApplicationInstance
deriving DecidableEq, Repr

/-- The resource flavor of an instance. `Mem` and `Cpus` are integer fields, `Price`
is a floating-point field already widened to `float64`. -/
structure FlavorView where
  Mem : Int
  Cpus : Int
  Price : F64
deriving DecidableEq, Repr

/-- An instance as listed by `ListInstances`. -/
structure SuperNovaInstanceView where
  State : String
  Flavor : FlavorView
deriving DecidableEq, Repr

/-- An addon as listed by `ListAddons`. -/
structure AddonView where
  ID : String
  Name : String
  Region : String
deriving DecidableEq, Repr

/-! ## the API client (package `client`) -/

/-- A Go `error` value that is not nil. -/
abbrev Error := String

/-- A `client.Response[T]`: a decoded payload, or an error. A response without error
carries a payload. -/
inductive Response (T : Type) where
  | payload (p : T)
  | error (e : Error)

namespace Response

/-- Method `HasError`. -/
def HasError {T : Type} : Response T → Bool
  | payload _ => false
  | error _ => true

/-- Method `Error`; `none` is the nil error. -/
def Error {T : Type} : Response T → Option collector.Error
  | payload _ => none
  | error e => some e

/-- Method `Payload`; `none` is the nil pointer. -/
def Payload {T : Type} : Response T → Option T
  | payload p => some p
  | error _ => none

end Response

/-- The payload of the instances endpoint, `map[string][]models.SuperNovaInstanceView`,
as the lookup it supports. -/
abbrev InstanceMap := String → Option (List SuperNovaInstanceView)

/-- The provider as seen through `*client.Client` during one scrape: the answer of
each endpoint, the per-organisation ones as a function of the organisation id. -/
structure Client where
  organisations : Response (List Organisation)
  applications : String → Response (List Application)
  instances : String → Response InstanceMap
  addons : String → Response (List AddonView)

/-- The function `List` of package `organisation`. -/
def organisation_List (cc : Client) : Response (List Organisation) := cc.organisations

/-- The function `ListApplications` of package `organisation`. -/
def organisation_ListApplications (cc : Client) (orgID : String) :
    Response (List Application) := cc.applications orgID

/-- `ListAddons`: a GET of `/v2/organisations/{id}/addons`. -/
def ListAddons (cc : Client) (orgID : String) : Response (List AddonView) := cc.addons orgID

/-- `ListInstances`: a GET of `/v2/organisations/{id}/instances`. -/
def ListInstances (cc : Client) (orgID : String) : Response InstanceMap := cc.instances orgID

/-- The generic `parse`: `(nil, response.Error())` on error, else
`(response.Payload(), nil)`. -/
def parse {T : Type} (response : Response T) : Option T × Option Error :=
  if response.HasError then (none, response.Error) else (response.Payload, none)

/-! ## helpers from `lo` and `strconv` -/

/-- `lo.Ternary`. -/
def Ternary {α : Type} (condition : Bool) (ifOutput elseOutput : α) : α :=
  if condition then ifOutput else elseOutput

/-- `strconv.FormatBool`. -/
def FormatBool (b : Bool) : String := if b then "true" else "false"

/-- The statement `result[key]++` on a `map[string]int`. -/
def incr : List (String × Int) → String → List (String × Int)
  | [], key => [(key, 1)]
  | (k, n) :: rest, key => if k = key then (k, n + 1) :: rest else (k, n) :: incr rest key

/-- `lo.CountValuesBy`: starting from the empty map, `result[mapper(item)]++` for each
item of the collection in turn. -/
def CountValuesBy {T : Type} (collection : List T) (mapper : T → String) :
    List (String × Int) :=
  collection.foldl (fun result item => incr result (mapper item)) []

/-- `lo.SumBy` at result type `float64`: starting from `0`,
`sum = sum + iteratee(item)` for each item in turn. -/
def SumBy {T : Type} (collection : List T) (iteratee : T → F64) : F64 :=
  collection.foldl (fun sum item => F64.add sum (iteratee item)) F64.zero

/-! ## metrics (package `prometheus`) -/

/-- A `prometheus.Desc`: fully qualified name, help text and the ordered names of the
variable labels. -/
structure Desc where
  fqName : String
  help : String
  variableLabels : List String
deriving DecidableEq, Repr

/-- `prometheus.NewDesc` with no constant labels. -/
def NewDesc (fqName help : String) (variableLabels : List String) : Desc :=
  { fqName := fqName, help := help, variableLabels := variableLabels }

/-- `prometheus.ValueType`. -/
inductive ValueType where
  | CounterValue
  | GaugeValue
  | UntypedValue
deriving DecidableEq, Repr

/-- A constant metric: what `Collect` sends on the channel. -/
structure Metric where
  desc : Desc
  valType : ValueType
  val : F64
  labelValues : List String
deriving DecidableEq, Repr

/-- `prometheus.MustNewConstMetric`: panics (`none`) when the number of label values
differs from the number of variable labels of the descriptor. -/
def MustNewConstMetric (desc : Desc) (valueType : ValueType) (value : F64)
    (labelValues : List String) : Option Metric :=
  if labelValues.length ≠ desc.variableLabels.length then none
  else some { desc := desc, valType := valueType, val := value, labelValues := labelValues }

/-! ## the collector -/

/-- The struct `DeploymentCollector` (the mutex is not represented: a single call of
`Collect` is modelled). -/
structure DeploymentCollector where
  client : Client
  appStatus : Desc
  addonStatus : Desc
  instanceStatus : Desc
  instanceMemoryTotal : Desc
  instanceCPUTotal : Desc
  instanceHourlyPriceTotal : Desc

/-- `NewDeploymentCollector`. -/
def NewDeploymentCollector (namespace_ : String) (client : Client) : DeploymentCollector :=
  { client := client
    appStatus := NewDesc (namespace_ ++ "_application_status") "Applications status"
      ["org_id", "org_name", "app_id", "app_name", "region", "archived", "type"]
    addonStatus := NewDesc (namespace_ ++ "_addon_status") "Addons status"
      ["org_id", "org_name", "addon_id", "addon_name", "region"]
    instanceStatus := NewDesc (namespace_ ++ "_instance_status") "Instances status"
      ["org_id", "org_name", "app_id", "app_name", "region", "type", "state"]
    instanceMemoryTotal := NewDesc (namespace_ ++ "_instance_memory_total")
      "Instances memory total"
      ["org_id", "org_name", "app_id", "app_name", "region", "type"]
    instanceCPUTotal := NewDesc (namespace_ ++ "_instance_cpu_total") "Instances CPU total"
      ["org_id", "org_name", "app_id", "app_name", "region", "type"]
    instanceHourlyPriceTotal := NewDesc (namespace_ ++ "_instance_hourly_price_total")
      "Instances price total"
      ["org_id", "org_name", "app_id", "app_name", "region", "type"] }

/-- What a call of `Collect` has produced so far: the metrics sent on `ch` and the
values handed to `logrus.Error` (`none` is a nil error), both in program order. -/
structure Out where
  ch : List Metric
  log : List (Option Error)
deriving DecidableEq, Repr

/-- The statement `ch <- m`. -/
def Out.send (st : Out) (m : Metric) : Out := { st with ch := st.ch ++ [m] }

/-- The statement `logrus.Error(err)`. -/
def Out.logError (st : Out) (err : Option Error) : Out := { st with log := st.log ++ [err] }

/-- The order in which `range` visits the entries of the map `perState` built for an
application of an organisation: some rearrangement of the entries. -/
structure RangeOrder where
  visit : Organisation → Application → List (String × Int) → List (String × Int)
  perm : ∀ org app m, (visit org app m).Perm m

/-- The order of first insertion. -/
def RangeOrder.insertion : RangeOrder :=
  { visit := fun _ _ m => m, perm := fun _ _ m => List.Perm.refl m }

/-- One pass of the loop `for state, count := range perState` (lines 127-140). -/
def Collect.stateBody (c : DeploymentCollector) (org : Organisation) (app : Application)
    (st : Out) (entry : String × Int) : Option Out := do
  let m ← MustNewConstMetric c.instanceStatus ValueType.GaugeValue (F64.ofInt entry.2)
    [org.ID, org.Name, app.ID, app.Name, app.Zone, app.Instance.Type_, entry.1]
  pure (st.send m)

/-- One pass of the loop `for _, app := range *apps` (lines 106-183). `allInstances`
and `errInstance` are the two results of parsing the instance listing. -/
def Collect.appBody (rng : RangeOrder) (c : DeploymentCollector) (org : Organisation)
    (allInstances : Option InstanceMap) (errInstance : Option Error)
    (st : Out) (app : Application) : Option Out := do
  let m ← MustNewConstMetric c.appStatus ValueType.GaugeValue
    (F64.ofInt (Ternary (app.State == "SHOULD_BE_UP") 1 0))
    [org.ID, org.Name, app.ID, app.Name, app.Zone, FormatBool app.Archived,
      app.Instance.Type_]
  let st := st.send m
  match errInstance with
  | some _ => pure st
  | none =>
    match allInstances with
    | none => none
    | some all =>
      match all app.ID with
      | none => pure st
      | some instances => do
        let perState := CountValuesBy instances (fun item => item.State)
        let st ← (rng.visit org app perState).foldlM (Collect.stateBody c org app) st
        let m ← MustNewConstMetric c.instanceMemoryTotal ValueType.GaugeValue
          (SumBy instances (fun item => F64.ofInt item.Flavor.Mem))
          [org.ID, org.Name, app.ID, app.Name, app.Zone, app.Instance.Type_]
        let st := st.send m
        let m ← MustNewConstMetric c.instanceCPUTotal ValueType.GaugeValue
          (SumBy instances (fun item => F64.ofInt item.Flavor.Cpus))
          [org.ID, org.Name, app.ID, app.Name, app.Zone, app.Instance.Type_]
        let st := st.send m
        let m ← MustNewConstMetric c.instanceHourlyPriceTotal ValueType.GaugeValue
          (SumBy instances (fun item => item.Flavor.Price))
          [org.ID, org.Name, app.ID, app.Name, app.Zone, app.Instance.Type_]
        pure (st.send m)

/-- One pass of the loop `for _, addon := range *addons` (lines 191-202). -/
def Collect.addonBody (c : DeploymentCollector) (org : Organisation)
    (st : Out) (addon : AddonView) : Option Out := do
  let m ← MustNewConstMetric c.addonStatus ValueType.GaugeValue (F64.ofInt 1)
    [org.ID, org.Name, addon.ID, addon.Name, addon.Region]
  pure (st.send m)

/-- One pass of the loop `for _, org := range *orgs` (lines 94-204). The parameter
`err` is the variable `err` declared on line 88, which is the one in scope on line 98;
the `err` of lines 102-104 and 187-189 is the variable declared on line 102. -/
def Collect.orgBody (rng : RangeOrder) (c : DeploymentCollector) (err : Option Error)
    (st : Out) (org : Organisation) : Option Out := do
  let (allInstances, errInstance) := parse (ListInstances c.client org.ID)
  let st := if errInstance.isSome then st.logError err else st
  let (apps, err1) := parse (organisation_ListApplications c.client org.ID)
  let st ←
    match err1 with
    | some e => pure (st.logError (some e))
    | none =>
      match apps with
      | none => none
      | some apps => apps.foldlM (Collect.appBody rng c org allInstances errInstance) st
  let (addons, err2) := parse (ListAddons c.client org.ID)
  match err2 with
  | some e => pure (st.logError (some e))
  | none =>
    match addons with
    | none => none
    | some addons => addons.foldlM (Collect.addonBody c org) st

/-- The method `Collect` (lines 84-205): the final channel contents and log, or `none`
if the call panics. -/
def Collect (rng : RangeOrder) (c : DeploymentCollector) : Option Out :=
  let (orgs, err) := parse (organisation_List c.client)
  match err with
  | some e => some (Out.logError { ch := [], log := [] } (some e))
  | none =>
    match orgs with
    | none => none
    | some orgs => orgs.foldlM (Collect.orgBody rng c err) { ch := [], log := [] }

/-! ## what a call emits, in closed form -/

/-- The list carried by a response: its payload, or nothing when it is an error. -/
def Response.items {T : Type} : Response (List T) → List T
  | Response.payload l => l
  | Response.error _ => []

/-- The error carried by a response, as the list of values logged for it. -/
def Response.failure {T : Type} : Response T → List (Option collector.Error)
  | Response.payload _ => []
  | Response.error e => [some e]

/-- The instance list that the successfully fetched instance map of organisation `org`
holds under the identifier of `app`, if the fetch succeeded and there is one. -/
def Client.entry (cl : Client) (org : Organisation) (app : Application) :
    Option (List SuperNovaInstanceView) :=
  match cl.instances org.ID with
  | Response.payload all => all app.ID
  | Response.error _ => none

/-- The application-status metric of `app` under `org` (lines 107-118). -/
def appStatusMetric (c : DeploymentCollector) (org : Organisation) (app : Application) :
    Metric :=
  { desc := c.appStatus, valType := ValueType.GaugeValue,
    val := F64.ofInt (Ternary (app.State == "SHOULD_BE_UP") 1 0),
    labelValues := [org.ID, org.Name, app.ID, app.Name, app.Zone, FormatBool app.Archived,
      app.Instance.Type_] }

/-- The instance-status metric of one entry of `perState` (lines 128-139). -/
def instanceStatusMetric (c : DeploymentCollector) (org : Organisation) (app : Application)
    (entry : String × Int) : Metric :=
  { desc := c.instanceStatus, valType := ValueType.GaugeValue, val := F64.ofInt entry.2,
    labelValues := [org.ID, org.Name, app.ID, app.Name, app.Zone, app.Instance.Type_,
      entry.1] }

/-- The instance-memory-total metric of an instance list (lines 142-154). -/
def instanceMemoryTotalMetric (c : DeploymentCollector) (org : Organisation)
    (app : Application) (instances : List SuperNovaInstanceView) : Metric :=
  { desc := c.instanceMemoryTotal, valType := ValueType.GaugeValue,
    val := SumBy instances (fun item => F64.ofInt item.Flavor.Mem),
    labelValues := [org.ID, org.Name, app.ID, app.Name, app.Zone, app.Instance.Type_] }

/-- The instance-cpu-total metric of an instance list (lines 155-167). -/
def instanceCPUTotalMetric (c : DeploymentCollector) (org : Organisation)
    (app : Application) (instances : List SuperNovaInstanceView) : Metric :=
  { desc := c.instanceCPUTotal, valType := ValueType.GaugeValue,
    val := SumBy instances (fun item => F64.ofInt item.Flavor.Cpus),
    labelValues := [org.ID, org.Name, app.ID, app.Name, app.Zone, app.Instance.Type_] }

/-- The instance-hourly-price-total metric of an instance list (lines 168-180). -/
def instanceHourlyPriceTotalMetric (c : DeploymentCollector) (org : Organisation)
    (app : Application) (instances : List SuperNovaInstanceView) : Metric :=
  { desc := c.instanceHourlyPriceTotal, valType := ValueType.GaugeValue,
    val := SumBy instances (fun item => item.Flavor.Price),
    labelValues := [org.ID, org.Name, app.ID, app.Name, app.Zone, app.Instance.Type_] }

/-- The addon-status metric of `addon` under `org` (lines 192-201). -/
def addonStatusMetric (c : DeploymentCollector) (org : Organisation) (addon : AddonView) :
    Metric :=
  { desc := c.addonStatus, valType := ValueType.GaugeValue, val := F64.ofInt 1,
    labelValues := [org.ID, org.Name, addon.ID, addon.Name, addon.Region] }

/-- The instance-derived metrics sent for `app` under `org` when the instance map holds
`instances` under its identifier. -/
def instanceBlock (rng : RangeOrder) (c : DeploymentCollector) (org : Organisation)
    (app : Application) (instances : List SuperNovaInstanceView) : List Metric :=
  (rng.visit org app (CountValuesBy instances (fun item => item.State))).map
      (instanceStatusMetric c org app) ++
    [instanceMemoryTotalMetric c org app instances, instanceCPUTotalMetric c org app instances,
      instanceHourlyPriceTotalMetric c org app instances]

/-- The metrics sent during the pass of the application loop for `app` under `org`. -/
def appBlock (rng : RangeOrder) (c : DeploymentCollector) (org : Organisation)
    (app : Application) : List Metric :=
  appStatusMetric c org app ::
    match c.client.entry org app with
    | none => []
    | some instances => instanceBlock rng c org app instances

/-- The metrics sent during the pass of the addon loop for `addon` under `org`. -/
def addonBlock (c : DeploymentCollector) (org : Organisation) (addon : AddonView) :
    List Metric :=
  [addonStatusMetric c org addon]

/-- The metrics sent during the pass of the organisation loop for `org`. -/
def orgBlock (rng : RangeOrder) (c : DeploymentCollector) (org : Organisation) :
    List Metric :=
  (c.client.applications org.ID).items.flatMap (appBlock rng c org) ++
    (c.client.addons org.ID).items.flatMap (addonBlock c org)

/-- The values logged during the pass of the organisation loop for `org`. -/
def orgLog (c : DeploymentCollector) (org : Organisation) : List (Option Error) :=
  (if (c.client.instances org.ID).HasError then [none] else []) ++
    (c.client.applications org.ID).failure ++ (c.client.addons org.ID).failure

/-- What `result` satisfies after the keys of `l` have been counted into it. -/
def Counted (m : List (String × Int)) (l : List String) : Prop :=
  (m.map Prod.fst).Nodup ∧ (∀ s, s ∈ m.map Prod.fst ↔ s ∈ l) ∧
    ∀ s n, (s, n) ∈ m → n = (l.count s : Int)

/-- The scenario of the specification: organisation `O1` ("Acme") with application `A1`
("web", state `SHOULD_BE_UP`, zone "par", type "pico", not archived), two instances in
state `UP` and one in state `DEPLOYING`, each with memory 512, one cpu and the given
price; no addon. -/
def scenario (price : F64) : Client :=
  { organisations := Response.payload [{ ID := "O1", Name := "Acme" }]
    applications := fun _ => Response.payload
      [{ ID := "A1", Name := "web", State := "SHOULD_BE_UP", Zone := "par",
         Archived := false, Instance := { Type_ := "pico" } }]
    instances := fun _ => Response.payload (fun appID =>
      if appID = "A1" then
        some [{ State := "UP", Flavor := { Mem := 512, Cpus := 1, Price := price } },
              { State := "UP", Flavor := { Mem := 512, Cpus := 1, Price := price } },
              { State := "DEPLOYING", Flavor := { Mem := 512, Cpus := 1, Price := price } }]
      else none)
    addons := fun _ => Response.payload [] }

/-! ## exact conversions and sums of small integers -/

theorem bitLenAux_spec : ∀ (f n : Nat), n ≤ f →
    n < 2 ^ bitLenAux f n ∧ (n ≠ 0 → 2 ^ (bitLenAux f n - 1) ≤ n)
  | 0, n, h => by
    have : n = 0 := by omega
    subst this
    simp [bitLenAux]
  | f + 1, n, h => by
    by_cases hn : n = 0
    · subst hn; simp [bitLenAux]
    · have hle : n / 2 ≤ f := by omega
      obtain ⟨h1, h2⟩ := bitLenAux_spec f (n / 2) hle
      simp only [bitLenAux, hn, if_false, Nat.add_sub_cancel]
      refine ⟨?_, fun _ => ?_⟩
      · rw [pow_succ]; omega
      · by_cases h0 : n / 2 = 0
        · have hb : bitLenAux f (n / 2) = 0 := by
            rw [h0]; cases f <;> simp [bitLenAux]
          rw [hb]; simp; omega
        · have := h2 h0
          have hpos : 0 < bitLenAux f (n / 2) := by
            by_contra hc
            have hz : bitLenAux f (n / 2) = 0 := by omega
            rw [hz] at h1
            simp at h1
            exact h0 h1
          have e : bitLenAux f (n / 2) = (bitLenAux f (n / 2) - 1) + 1 := by omega
          rw [e, pow_succ]
          omega

theorem bitLen_lt (n : Nat) : n < 2 ^ bitLen n := (bitLenAux_spec n n le_rfl).1

theorem bitLen_le (n : Nat) (h : n ≠ 0) : 2 ^ (bitLen n - 1) ≤ n :=
  (bitLenAux_spec n n le_rfl).2 h

theorem bitLen_pos (n : Nat) (h : n ≠ 0) : 0 < bitLen n := by
  by_contra hc
  have hz : bitLen n = 0 := by omega
  have := bitLen_lt n
  rw [hz] at this
  simp at this
  exact h this

theorem bitLen_unique (n b : Nat) (h1 : 2 ^ b ≤ n) (h2 : n < 2 ^ (b + 1)) :
    bitLen n = b + 1 := by
  have hn : n ≠ 0 := by
    have : 0 < 2 ^ b := Nat.two_pow_pos b
    omega
  have hlt := bitLen_lt n
  have hle := bitLen_le n hn
  have hpos := bitLen_pos n hn
  by_contra hne
  rcases Nat.lt_or_gt_of_ne hne with h | h
  · have : 2 ^ bitLen n ≤ 2 ^ b := Nat.pow_le_pow_right (by norm_num) (by omega)
    omega
  · have : 2 ^ (b + 1) ≤ 2 ^ (bitLen n - 1) := Nat.pow_le_pow_right (by norm_num) (by omega)
    omega

theorem bitLen_double (n : Nat) (h : n ≠ 0) : bitLen (2 * n) = bitLen n + 1 := by
  have hpos := bitLen_pos n h
  have hlt := bitLen_lt n
  have hle := bitLen_le n h
  apply bitLen_unique
  · have e : bitLen n = (bitLen n - 1) + 1 := by omega
    rw [e, pow_succ]; omega
  · rw [pow_succ]; omega

theorem bitLen_le_of_lt (n b : Nat) (h : n < 2 ^ b) : bitLen n ≤ b := by
  by_cases hn : n = 0
  · subst hn; simp [bitLen, bitLenAux]
  · by_contra hc
    have hle := bitLen_le n hn
    have : 2 ^ b ≤ 2 ^ (bitLen n - 1) := Nat.pow_le_pow_right (by norm_num) (by omega)
    omega

theorem bitLen_mul_two_pow (c : Nat) (h : c ≠ 0) (j : Nat) :
    bitLen (c * 2 ^ j) = bitLen c + j := by
  induction j with
  | zero => simp
  | succ j ih =>
    have hne : c * 2 ^ j ≠ 0 := Nat.mul_ne_zero h (Nat.ne_of_gt (Nat.two_pow_pos _))
    have e : c * 2 ^ (j + 1) = 2 * (c * 2 ^ j) := by rw [pow_succ]; ring
    rw [e, bitLen_double _ hne, ih]
    omega

theorem bitLen_two_pow (j : Nat) : bitLen (2 ^ j) = j + 1 := by
  have := bitLen_mul_two_pow 1 (by norm_num) j
  have h1 : bitLen 1 = 1 := by decide
  rw [Nat.one_mul, h1] at this
  omega

/-- Rounding the quotient `c * 2 ^ j / 2 ^ j` of a nonzero natural number below `2 ^ 53`
is exact. -/
theorem round_scaled (c : Nat) (h0 : c ≠ 0) (h : c < 2 ^ 53) (j : Nat) :
    F64.round false (c * 2 ^ j) (2 ^ j) =
      F64.finite false (c * 2 ^ (53 - bitLen c)) ((bitLen c : Int) - 53) := by
  have hL1 := bitLen_pos c h0
  have hL2 := bitLen_le_of_lt c 53 h
  have hlt := bitLen_lt c
  have hj : (2 : Nat) ^ j ≠ 0 := Nat.ne_of_gt (Nat.two_pow_pos _)
  have hcj : c * 2 ^ j ≠ 0 := Nat.mul_ne_zero h0 hj
  have hd : bitLen (c * 2 ^ j * 2 ^ (j + 1) / 2 ^ j) = bitLen c + (j + 1) := by
    rw [Nat.mul_right_comm, Nat.mul_div_cancel _ (Nat.two_pow_pos j)]
    exact bitLen_mul_two_pow c h0 (j + 1)
  have hm : c * 2 ^ (53 - bitLen c) < 2 ^ 53 := by
    calc c * 2 ^ (53 - bitLen c) < 2 ^ bitLen c * 2 ^ (53 - bitLen c) :=
          Nat.mul_lt_mul_of_pos_right hlt (Nat.two_pow_pos _)
      _ = 2 ^ 53 := by rw [← pow_add]; congr 1; omega
  have hm0 : c * 2 ^ (53 - bitLen c) ≠ 0 :=
    Nat.mul_ne_zero h0 (Nat.ne_of_gt (Nat.two_pow_pos _))
  unfold F64.round F64.roundTo
  simp only [hcj, hj, if_false, bitLen_two_pow, hd]
  have hq : max (((bitLen c + (j + 1) : Nat) : Int) - ((j + 1 : Nat) : Int) - ((53 : Nat) : Int))
      (-1074) = (bitLen c : Int) - 53 := by
    push_cast
    omega
  rw [hq]
  have hex : ¬ (971 : Int) < (bitLen c : Int) - 53 := by omega
  by_cases h53 : bitLen c = 53
  · have hq0 : (0 : Int) ≤ (bitLen c : Int) - 53 := by omega
    have ht : ((bitLen c : Int) - 53).toNat = 0 := by omega
    simp only [hq0, if_true, ht, pow_zero, Nat.mul_one]
    rw [Nat.mul_div_cancel _ (Nat.two_pow_pos j), Nat.mul_mod_left]
    simp only [h53, Nat.sub_self, pow_zero, Nat.mul_one] at hm hm0 ⊢
    have hne : c ≠ 9007199254740992 := by omega
    have hj0 : ¬ (0 = 2 ^ j) := fun e => hj e.symm
    simp [h0, hne, hj0]
  · have hq0 : ¬ (0 : Int) ≤ (bitLen c : Int) - 53 := by omega
    have ht : (-((bitLen c : Int) - 53)).toNat = 53 - bitLen c := by omega
    simp only [hq0, if_false, ht]
    have e : c * 2 ^ j * 2 ^ (53 - bitLen c) = c * 2 ^ (53 - bitLen c) * 2 ^ j := by ring
    rw [e, Nat.mul_div_cancel _ (Nat.two_pow_pos j), Nat.mul_mod_left]
    have hne : c * 2 ^ (53 - bitLen c) ≠ 9007199254740992 := Nat.ne_of_lt hm
    have hj0 : ¬ (0 = 2 ^ j) := fun e => hj e.symm
    simp [hm0, hne, hex, hj0]

theorem ofInt_natCast (n : Nat) (h0 : n ≠ 0) (h : n < 2 ^ 53) :
    F64.ofInt (n : Int) =
      F64.finite false (n * 2 ^ (53 - bitLen n)) ((bitLen n : Int) - 53) := by
  have := round_scaled n h0 h 0
  simp only [pow_zero, Nat.mul_one] at this
  have hneg : decide ((n : Int) < 0) = false := by simp
  unfold F64.ofInt
  rw [hneg, Int.natAbs_ofNat]
  exact this

theorem ofInt_zero : F64.ofInt ((0 : Nat) : Int) = F64.finite false 0 0 := by decide

/-- Rounding the quotient `c * 2 ^ j / 2 ^ j` of a natural number below `2 ^ 53` gives
`float64(c)`. -/
theorem round_scaled_eq_ofInt (c : Nat) (h : c < 2 ^ 53) (j : Nat) :
    F64.round false (c * 2 ^ j) (2 ^ j) = F64.ofInt (c : Int) := by
  by_cases h0 : c = 0
  · subst h0
    rw [ofInt_zero]
    have hj : (2 : Nat) ^ j ≠ 0 := Nat.ne_of_gt (Nat.two_pow_pos _)
    simp [F64.round, F64.roundTo, hj, F64.zero]
  · rw [round_scaled c h0 h j, ofInt_natCast c h0 h]

/-- The datum `float64(n)` of a natural number below `2 ^ 53` has a nonpositive exponent
`e` and the significand `n * 2 ^ (-e)`. -/
theorem ofInt_rep (n : Nat) (h : n < 2 ^ 53) :
    ∃ j : Nat, F64.ofInt (n : Int) = F64.finite false (n * 2 ^ j) (-(j : Int)) := by
  by_cases h0 : n = 0
  · subst h0
    exact ⟨0, by rw [ofInt_zero]; rfl⟩
  · refine ⟨53 - bitLen n, ?_⟩
    rw [ofInt_natCast n h0 h]
    have hL2 := bitLen_le_of_lt n 53 h
    congr 1
    omega

theorem add_ofInt (a b : Nat) (h : a + b < 2 ^ 53) :
    F64.add (F64.ofInt (a : Int)) (F64.ofInt (b : Int)) = F64.ofInt ((a + b : Nat) : Int) := by
  obtain ⟨i, hi⟩ := ofInt_rep a (by omega)
  obtain ⟨j, hj⟩ := ofInt_rep b (by omega)
  rw [hi, hj]
  unfold F64.add
  simp only [F64.signed, Bool.false_eq_true, if_false]
  have hmin : min (-(i : Int)) (-(j : Int)) = -((max i j : Nat) : Int) := by
    rcases le_total i j with hij | hij
    · rw [max_eq_right hij, min_eq_right (by omega)]
    · rw [max_eq_left hij, min_eq_left (by omega)]
  rw [hmin]
  have e1 : (-(i : Int) - -((max i j : Nat) : Int)).toNat = max i j - i := by
    have := le_max_left i j
    omega
  have e2 : (-(j : Int) - -((max i j : Nat) : Int)).toNat = max i j - j := by
    have := le_max_right i j
    omega
  have e3 : (- -((max i j : Nat) : Int)).toNat = max i j := by omega
  rw [e1, e2, e3]
  have hs : ((a * 2 ^ i : Nat) : Int) * 2 ^ (max i j - i) +
      ((b * 2 ^ j : Nat) : Int) * 2 ^ (max i j - j) =
      (((a + b) * 2 ^ (max i j) : Nat) : Int) := by
    have p1 : 2 ^ i * 2 ^ (max i j - i) = 2 ^ (max i j) := by
      rw [← pow_add]; congr 1; have := le_max_left i j; omega
    have p2 : 2 ^ j * 2 ^ (max i j - j) = 2 ^ (max i j) := by
      rw [← pow_add]; congr 1; have := le_max_right i j; omega
    push_cast
    have q1 : ((2 : Int) ^ i) * 2 ^ (max i j - i) = 2 ^ (max i j) := by exact_mod_cast p1
    have q2 : ((2 : Int) ^ j) * 2 ^ (max i j - j) = 2 ^ (max i j) := by exact_mod_cast p2
    calc (a : Int) * 2 ^ i * 2 ^ (max i j - i) + (b : Int) * 2 ^ j * 2 ^ (max i j - j)
        = (a : Int) * (2 ^ i * 2 ^ (max i j - i)) + (b : Int) * (2 ^ j * 2 ^ (max i j - j)) := by
          ring
      _ = ((a : Int) + b) * 2 ^ (max i j) := by rw [q1, q2]; ring
  rw [hs]
  have hneg : decide ((((a + b) * 2 ^ (max i j) : Nat) : Int) < 0) = false := by
    simp only [decide_eq_false_iff_not, not_lt]
    exact Int.ofNat_nonneg _
  rw [hneg, Int.natAbs_ofNat]
  by_cases hz : max i j = 0
  · have hc : (0 : Int) ≤ -((max i j : Nat) : Int) := by omega
    simp only [hc, if_true, hz]
    have := round_scaled_eq_ofInt (a + b) h 0
    simpa using this
  · have hc : ¬ (0 : Int) ≤ -((max i j : Nat) : Int) := by omega
    simp only [hc, if_false]
    exact round_scaled_eq_ofInt (a + b) h (max i j)

theorem foldl_add_ofInt {T : Type} (g : T → Int) :
    ∀ (xs : List T) (acc : Nat), (∀ x ∈ xs, 0 ≤ g x) →
      (acc : Int) + (xs.map g).sum < 2 ^ 53 →
      xs.foldl (fun sum item => F64.add sum (F64.ofInt (g item))) (F64.ofInt (acc : Int)) =
        F64.ofInt ((acc : Int) + (xs.map g).sum)
  | [], acc, _, _ => by simp
  | x :: xs, acc, hnn, hlt => by
    have hx : 0 ≤ g x := hnn x (List.mem_cons_self _ _)
    have hrest : ∀ y ∈ xs, 0 ≤ g y := fun y hy => hnn y (List.mem_cons_of_mem _ hy)
    have hsum : 0 ≤ (xs.map g).sum := List.sum_nonneg (by
      intro v hv
      obtain ⟨y, hy, rfl⟩ := List.mem_map.mp hv
      exact hrest y hy)
    simp only [List.map_cons, List.sum_cons] at hlt
    obtain ⟨k, hk⟩ := Int.eq_ofNat_of_zero_le hx
    have hak : acc + k < 2 ^ 53 := by
      have : ((acc + k : Nat) : Int) < 2 ^ 53 := by push_cast; omega
      exact_mod_cast this
    simp only [List.foldl_cons, List.map_cons, List.sum_cons]
    rw [hk, add_ofInt acc k hak]
    have := foldl_add_ofInt g xs (acc + k) hrest (by push_cast; omega)
    rw [this]
    congr 1
    push_cast
    ring

/-- On nonnegative integers whose total is below `2 ^ 53`, the accumulation of `lo.SumBy`
over their `float64` conversions is `float64` of the exact total. -/
theorem SumBy_ofInt {T : Type} (xs : List T) (g : T → Int) (hnn : ∀ x ∈ xs, 0 ≤ g x)
    (hlt : (xs.map g).sum < 2 ^ 53) :
    SumBy xs (fun item => F64.ofInt (g item)) = F64.ofInt ((xs.map g).sum) := by
  have := foldl_add_ofInt g xs 0 hnn (by simpa using hlt)
  simpa [SumBy, F64.zero, ofInt_zero] using this

theorem toRat_ofInt_natCast (n : Nat) (h : n < 2 ^ 53) : F64.toRat (F64.ofInt (n : Int)) = n := by
  by_cases h0 : n = 0
  · subst h0
    rw [ofInt_zero]
    simp [F64.toRat]
  · rw [ofInt_natCast n h0 h]
    have hL2 := bitLen_le_of_lt n 53 h
    simp only [F64.toRat, Bool.false_eq_true, if_false, one_mul]
    have e : ((bitLen n : Int) - 53) = -((53 - bitLen n : Nat) : Int) := by omega
    rw [e, zpow_neg, zpow_natCast]
    push_cast
    field_simp

/-! ## loops -/

theorem foldlM_emit {α : Type} (f : Out → α → Option Out) (g : α → List Metric)
    (l : α → List (Option Error))
    (h : ∀ st x, f st x = some { ch := st.ch ++ g x, log := st.log ++ l x }) :
    ∀ (xs : List α) (st : Out),
      xs.foldlM f st = some { ch := st.ch ++ xs.flatMap g, log := st.log ++ xs.flatMap l }
  | [], st => by simp
  | x :: xs, st => by
    simp [List.foldlM, h, foldlM_emit f g l h xs, List.append_assoc]

theorem flatMap_single {α β : Type} (f : α → β) (xs : List α) :
    xs.flatMap (fun x => [f x]) = xs.map f := by
  induction xs with
  | nil => rfl
  | cons x xs ih => simp [List.flatMap_cons, ih]

theorem flatMap_empty {α β : Type} (xs : List α) :
    xs.flatMap (fun _ => ([] : List β)) = [] := by
  induction xs with
  | nil => rfl
  | cons x xs ih => simp [List.flatMap_cons, ih]

theorem Response.payload_or_error {T : Type} (r : Response T) :
    (∃ p, r = Response.payload p) ∨ (∃ e, r = Response.error e) := by
  cases r with
  | payload p => exact Or.inl ⟨p, rfl⟩
  | error e => exact Or.inr ⟨e, rfl⟩

theorem client_New (ns : String) (cl : Client) : (NewDeploymentCollector ns cl).client = cl :=
  rfl

theorem must_appStatus (ns : String) (cl : Client) (v : F64) (a b c d e f g : String) :
    MustNewConstMetric (NewDeploymentCollector ns cl).appStatus ValueType.GaugeValue v
        [a, b, c, d, e, f, g] =
      some { desc := (NewDeploymentCollector ns cl).appStatus, valType := ValueType.GaugeValue,
             val := v, labelValues := [a, b, c, d, e, f, g] } := rfl

theorem must_addonStatus (ns : String) (cl : Client) (v : F64) (a b c d e : String) :
    MustNewConstMetric (NewDeploymentCollector ns cl).addonStatus ValueType.GaugeValue v
        [a, b, c, d, e] =
      some { desc := (NewDeploymentCollector ns cl).addonStatus,
             valType := ValueType.GaugeValue, val := v, labelValues := [a, b, c, d, e] } := rfl

theorem must_instanceStatus (ns : String) (cl : Client) (v : F64) (a b c d e f g : String) :
    MustNewConstMetric (NewDeploymentCollector ns cl).instanceStatus ValueType.GaugeValue v
        [a, b, c, d, e, f, g] =
      some { desc := (NewDeploymentCollector ns cl).instanceStatus,
             valType := ValueType.GaugeValue, val := v,
             labelValues := [a, b, c, d, e, f, g] } := rfl

theorem must_instanceMemoryTotal (ns : String) (cl : Client) (v : F64)
    (a b c d e f : String) :
    MustNewConstMetric (NewDeploymentCollector ns cl).instanceMemoryTotal
        ValueType.GaugeValue v [a, b, c, d, e, f] =
      some { desc := (NewDeploymentCollector ns cl).instanceMemoryTotal,
             valType := ValueType.GaugeValue, val := v,
             labelValues := [a, b, c, d, e, f] } := rfl

theorem must_instanceCPUTotal (ns : String) (cl : Client) (v : F64) (a b c d e f : String) :
    MustNewConstMetric (NewDeploymentCollector ns cl).instanceCPUTotal
        ValueType.GaugeValue v [a, b, c, d, e, f] =
      some { desc := (NewDeploymentCollector ns cl).instanceCPUTotal,
             valType := ValueType.GaugeValue, val := v,
             labelValues := [a, b, c, d, e, f] } := rfl

theorem must_instanceHourlyPriceTotal (ns : String) (cl : Client) (v : F64)
    (a b c d e f : String) :
    MustNewConstMetric (NewDeploymentCollector ns cl).instanceHourlyPriceTotal
        ValueType.GaugeValue v [a, b, c, d, e, f] =
      some { desc := (NewDeploymentCollector ns cl).instanceHourlyPriceTotal,
             valType := ValueType.GaugeValue, val := v,
             labelValues := [a, b, c, d, e, f] } := rfl

theorem stateBody_eq (ns : String) (cl : Client) (org : Organisation) (app : Application)
    (st : Out) (entry : String × Int) :
    Collect.stateBody (NewDeploymentCollector ns cl) org app st entry =
      some { ch := st.ch ++ [instanceStatusMetric (NewDeploymentCollector ns cl) org app entry],
             log := st.log ++ [] } := by
  simp [Collect.stateBody, must_instanceStatus, Out.send, instanceStatusMetric]

theorem appBody_eq (rng : RangeOrder) (ns : String) (cl : Client) (org : Organisation) (st : Out)
    (app : Application) :
    Collect.appBody rng (NewDeploymentCollector ns cl) org
        (parse (ListInstances cl org.ID)).1 (parse (ListInstances cl org.ID)).2 st app =
      some { ch := st.ch ++ appBlock rng (NewDeploymentCollector ns cl) org app,
             log := st.log ++ [] } := by
  unfold Collect.appBody appBlock Client.entry instanceBlock appStatusMetric
    instanceMemoryTotalMetric instanceCPUTotalMetric instanceHourlyPriceTotalMetric
  cases hi : cl.instances org.ID with
  | error e =>
    simp [parse, ListInstances, hi, Response.HasError, Response.Error, Response.Payload,
      must_appStatus, client_New, Out.send]
  | payload all =>
    cases ha : all app.ID with
    | none =>
      simp [parse, ListInstances, hi, ha, Response.HasError, Response.Error,
        Response.Payload, must_appStatus, client_New, Out.send]
    | some instances =>
      have hloop := foldlM_emit (Collect.stateBody (NewDeploymentCollector ns cl) org app)
        (fun entry => [instanceStatusMetric (NewDeploymentCollector ns cl) org app entry])
        (fun _ => []) (stateBody_eq ns cl org app)
      simp [parse, ListInstances, hi, ha, Response.HasError, Response.Error,
        Response.Payload, must_appStatus, must_instanceMemoryTotal, must_instanceCPUTotal,
        must_instanceHourlyPriceTotal, client_New, Out.send, hloop, flatMap_single]

theorem addonBody_eq (ns : String) (cl : Client) (org : Organisation) (st : Out)
    (addon : AddonView) :
    Collect.addonBody (NewDeploymentCollector ns cl) org st addon =
      some { ch := st.ch ++ addonBlock (NewDeploymentCollector ns cl) org addon,
             log := st.log ++ [] } := by
  simp [Collect.addonBody, addonBlock, addonStatusMetric, must_addonStatus, Out.send]

theorem orgBody_eq (rng : RangeOrder) (ns : String) (cl : Client) (st : Out) (org : Organisation) :
    Collect.orgBody rng (NewDeploymentCollector ns cl) none st org =
      some { ch := st.ch ++ orgBlock rng (NewDeploymentCollector ns cl) org,
             log := st.log ++ orgLog (NewDeploymentCollector ns cl) org } := by
  have happ := foldlM_emit _ _ (fun _ => []) (appBody_eq rng ns cl org)
  have hadd := foldlM_emit _ _ (fun _ => []) (addonBody_eq ns cl org)
  simp only [ListInstances] at happ
  unfold Collect.orgBody orgBlock orgLog
  simp only [client_New, ListInstances, ListAddons, organisation_ListApplications]
  rcases Response.payload_or_error (cl.instances org.ID) with ⟨_, hi⟩ | ⟨_, hi⟩ <;>
    rcases Response.payload_or_error (cl.applications org.ID) with ⟨_, ha⟩ | ⟨_, ha⟩ <;>
    rcases Response.payload_or_error (cl.addons org.ID) with ⟨_, hd⟩ | ⟨_, hd⟩ <;>
    simp only [parse, hi, Response.HasError, Response.Error, Response.Payload,
      Bool.false_eq_true, if_false, if_true] at happ <;>
    simp [parse, hi, ha, hd, Response.HasError, Response.Error, Response.Payload,
      Response.items, Response.failure, Out.logError, happ, hadd, flatMap_empty]

/-- The closed form of a call: the blocks of the organisations in order, and the log. -/
theorem Collect_eq (rng : RangeOrder) (ns : String) (cl : Client) :
    Collect rng (NewDeploymentCollector ns cl) =
      some { ch := cl.organisations.items.flatMap (orgBlock rng (NewDeploymentCollector ns cl)),
             log := match cl.organisations with
               | Response.error e => [some e]
               | Response.payload orgs =>
                 orgs.flatMap (orgLog (NewDeploymentCollector ns cl)) } := by
  have horg := foldlM_emit _ _ _ (orgBody_eq rng ns cl)
  unfold Collect
  simp only [client_New, organisation_List]
  rcases Response.payload_or_error cl.organisations with ⟨_, ho⟩ | ⟨_, ho⟩ <;>
    simp [parse, organisation_List, ho, Response.HasError, Response.Error, Response.Payload,
      Response.items, Out.logError, horg]

theorem filter_flatMap_eq {α β : Type} (p : β → Bool) (f : α → List β) (xs : List α) :
    (xs.flatMap f).filter p = xs.flatMap (fun x => (f x).filter p) := by
  induction xs with
  | nil => rfl
  | cons x xs ih => simp [List.flatMap_cons, List.filter_append, ih]

theorem appBlock_appStatus (rng : RangeOrder) (ns : String) (cl : Client) (org : Organisation)
    (app : Application) :
    (appBlock rng (NewDeploymentCollector ns cl) org app).filter
        (fun m => decide (m.desc = (NewDeploymentCollector ns cl).appStatus)) =
      [appStatusMetric (NewDeploymentCollector ns cl) org app] := by
  unfold appBlock
  cases (NewDeploymentCollector ns cl).client.entry org app with
  | none => simp [appStatusMetric]
  | some instances =>
    simp [appStatusMetric, instanceBlock, instanceStatusMetric, instanceMemoryTotalMetric,
      instanceCPUTotalMetric, instanceHourlyPriceTotalMetric, NewDeploymentCollector,
      NewDesc, List.filter_cons, List.filter_append, List.filter_map]

theorem addonBlock_appStatus (ns : String) (cl : Client) (org : Organisation)
    (addon : AddonView) :
    (addonBlock (NewDeploymentCollector ns cl) org addon).filter
        (fun m => decide (m.desc = (NewDeploymentCollector ns cl).appStatus)) = [] := by
  simp [addonBlock, addonStatusMetric, NewDeploymentCollector, NewDesc]

/-- [C1] For every organisation whose application listing succeeds and every application
in that list, `Collect` sends exactly one application-status metric: the
application-status metrics on the channel are, in order, one per listed application of
each organisation (none for an organisation whose application listing fails), with value
`float64(1)` when `State` is the string `SHOULD_BE_UP` and `float64(0)` for every other
string, and these two values are the data `1.0` and `0.0`. -/
theorem C1_application_status (rng : RangeOrder) (ns : String) (cl : Client) :
    ∃ out, Collect rng (NewDeploymentCollector ns cl) = some out ∧
      out.ch.filter (fun m => decide (m.desc = (NewDeploymentCollector ns cl).appStatus)) =
        cl.organisations.items.flatMap (fun org =>
          (cl.applications org.ID).items.map (fun app =>
            { desc := (NewDeploymentCollector ns cl).appStatus
              valType := ValueType.GaugeValue
              val := if app.State = "SHOULD_BE_UP" then F64.ofInt 1 else F64.ofInt 0
              labelValues := [org.ID, org.Name, app.ID, app.Name, app.Zone,
                FormatBool app.Archived, app.Instance.Type_] })) ∧
      F64.ofInt 1 = F64.finite false (2 ^ 52) (-52) ∧ F64.ofInt 0 = F64.finite false 0 0 := by
  refine ⟨_, Collect_eq rng ns cl, ?_, by decide, by decide⟩
  simp only [filter_flatMap_eq, orgBlock, List.filter_append, appBlock_appStatus,
    addonBlock_appStatus, client_New, flatMap_empty, List.append_nil, flatMap_single]
  congr 1
  funext org
  congr 1
  funext app
  by_cases h : app.State = "SHOULD_BE_UP" <;> simp [appStatusMetric, Ternary, h]

/-- [C2] If the organisation-list fetch fails, `Collect` sends no metric at all, whatever
the application, instance and addon listings would answer; it returns normally after
logging that one error. -/
theorem C2_organisation_list_failure (rng : RangeOrder) (ns : String) (e : Error)
    (apps : String → Response (List Application)) (insts : String → Response InstanceMap)
    (addons : String → Response (List AddonView)) :
    Collect rng (NewDeploymentCollector ns
        { organisations := Response.error e, applications := apps, instances := insts,
          addons := addons }) = some { ch := [], log := [some e] } := by
  rw [Collect_eq]
  simp [Response.items]

theorem mem_appBlock {rng : RangeOrder} {c : DeploymentCollector} {org : Organisation}
    {app : Application}
    {m : Metric} (h : m ∈ appBlock rng c org app) :
    m = appStatusMetric c org app ∨
      ∃ instances, c.client.entry org app = some instances ∧
        ((∃ entry ∈ rng.visit org app (CountValuesBy instances (fun item => item.State)),
            m = instanceStatusMetric c org app entry) ∨
          m = instanceMemoryTotalMetric c org app instances ∨
          m = instanceCPUTotalMetric c org app instances ∨
          m = instanceHourlyPriceTotalMetric c org app instances) := by
  unfold appBlock at h
  cases he : c.client.entry org app with
  | none => simp [he] at h; exact Or.inl h
  | some instances =>
    simp only [he, instanceBlock, List.mem_cons, List.mem_append, List.mem_map,
      List.mem_singleton, List.not_mem_nil, or_false] at h
    rcases h with h | ⟨entry, hin, rfl⟩ | h | h | h
    · exact Or.inl h
    · exact Or.inr ⟨instances, rfl, Or.inl ⟨entry, hin, rfl⟩⟩
    · exact Or.inr ⟨instances, rfl, Or.inr (Or.inl h)⟩
    · exact Or.inr ⟨instances, rfl, Or.inr (Or.inr (Or.inl h))⟩
    · exact Or.inr ⟨instances, rfl, Or.inr (Or.inr (Or.inr h))⟩

theorem mem_orgBlock {rng : RangeOrder} {c : DeploymentCollector} {org : Organisation} {m : Metric}
    (h : m ∈ orgBlock rng c org) :
    (∃ app ∈ (c.client.applications org.ID).items, m ∈ appBlock rng c org app) ∨
      ∃ addon ∈ (c.client.addons org.ID).items, m = addonStatusMetric c org addon := by
  simpa [orgBlock, addonBlock, List.mem_flatMap] using h

theorem appBlock_not_addon (rng : RangeOrder) (ns : String) (cl : Client) (org : Organisation)
    (app : Application) (m : Metric)
    (h : m ∈ appBlock rng (NewDeploymentCollector ns cl) org app) :
    m.desc ≠ (NewDeploymentCollector ns cl).addonStatus := by
  rcases mem_appBlock h with rfl | ⟨instances, _, ⟨entry, _, rfl⟩ | rfl | rfl | rfl⟩ <;>
    simp [appStatusMetric, instanceStatusMetric, instanceMemoryTotalMetric,
      instanceCPUTotalMetric, instanceHourlyPriceTotalMetric, NewDeploymentCollector, NewDesc]

/-- [C3] Replacing the addon answer for the organisation id of `O` by a failure, all
other answers unchanged, removes from the channel exactly the addon-status metrics
labelled with that organisation id and leaves every other metric in place, in the same
order; in particular the metrics that are not addon-status metrics are the same before
and after, for `O` and for every other organisation. -/
theorem C3_addon_failure_isolated (rng : RangeOrder) (ns : String) (cl : Client)
    (O : Organisation) (e : Error) :
    ∃ out out',
      Collect rng (NewDeploymentCollector ns cl) = some out ∧
      Collect rng (NewDeploymentCollector ns
        { cl with addons := Function.update cl.addons O.ID (Response.error e) }) = some out' ∧
      out'.ch = out.ch.filter (fun m =>
        !(decide (m.desc = (NewDeploymentCollector ns cl).addonStatus) &&
          decide (m.labelValues.head? = some O.ID))) ∧
      out'.ch.filter (fun m => !decide (m.desc = (NewDeploymentCollector ns cl).addonStatus)) =
        out.ch.filter (fun m => !decide (m.desc = (NewDeploymentCollector ns cl).addonStatus)) := by
  have key : (Response.items cl.organisations).flatMap (orgBlock rng (NewDeploymentCollector ns
        { cl with addons := Function.update cl.addons O.ID (Response.error e) })) =
      ((Response.items cl.organisations).flatMap
        (orgBlock rng (NewDeploymentCollector ns cl))).filter
        (fun m => !(decide (m.desc = (NewDeploymentCollector ns cl).addonStatus) &&
          decide (m.labelValues.head? = some O.ID))) := by
    rw [filter_flatMap_eq]
    congr 1
    funext org
    have happ : ∀ app, appBlock rng (NewDeploymentCollector ns
        { cl with addons := Function.update cl.addons O.ID (Response.error e) }) org app =
        appBlock rng (NewDeploymentCollector ns cl) org app := fun _ => rfl
    have hkeep : ∀ app, (appBlock rng (NewDeploymentCollector ns cl) org app).filter
        (fun m => !(decide (m.desc = (NewDeploymentCollector ns cl).addonStatus) &&
          decide (m.labelValues.head? = some O.ID))) =
        appBlock rng (NewDeploymentCollector ns cl) org app := by
      intro app
      apply List.filter_eq_self.mpr
      intro m hm
      simp [appBlock_not_addon rng ns cl org app m hm]
    simp only [orgBlock, client_New, List.filter_append, filter_flatMap_eq, happ, hkeep]
    congr 1
    by_cases hid : org.ID = O.ID
    · have hup : Function.update cl.addons O.ID (Response.error e) org.ID = Response.error e := by
        rw [hid, Function.update_same]
      simp [hup, hid, Response.items, addonBlock, addonStatusMetric, flatMap_empty]
    · simp [Function.update_noteq hid, addonBlock, addonStatusMetric, hid]
      rfl
  refine ⟨_, _, Collect_eq rng ns cl, Collect_eq rng ns _, key, ?_⟩
  show List.filter _ ((Response.items cl.organisations).flatMap _) = _
  rw [key, List.filter_filter]
  congr 1
  funext m
  by_cases hd : m.desc = (NewDeploymentCollector ns cl).addonStatus <;> simp [hd]

theorem mem_items_flatMap_orgBlock {rng : RangeOrder} {c : DeploymentCollector} {m : Metric}
    (h : m ∈ c.client.organisations.items.flatMap (orgBlock rng c)) :
    ∃ org ∈ c.client.organisations.items,
      (∃ app ∈ (c.client.applications org.ID).items, m ∈ appBlock rng c org app) ∨
        ∃ addon ∈ (c.client.addons org.ID).items, m = addonStatusMetric c org addon := by
  obtain ⟨org, horg, hm⟩ := List.mem_flatMap.mp h
  exact ⟨org, horg, mem_orgBlock hm⟩

/-- [C4] Let `A` be an application in the successfully fetched application list of an
organisation `O` of the organisation list. If the instance fetch for `O` failed, or it
succeeded and its map has no entry under the identifier of `A`, then `Collect` sends the
application-status metric of `A`, and no metric labelled with the identifiers of `O` and
`A` is an instance-status, instance-memory-total, instance-cpu-total or
instance-hourly-price-total metric. -/
theorem C4_no_instance_entry (rng : RangeOrder) (ns : String) (cl : Client)
    (orgs : List Organisation)
    (O : Organisation) (apps : List Application) (A : Application)
    (horgs : cl.organisations = Response.payload orgs) (hO : O ∈ orgs)
    (happs : cl.applications O.ID = Response.payload apps) (hA : A ∈ apps)
    (hinst : (∃ e, cl.instances O.ID = Response.error e) ∨
      ∃ all, cl.instances O.ID = Response.payload all ∧ all A.ID = none) :
    ∃ out, Collect rng (NewDeploymentCollector ns cl) = some out ∧
      { desc := (NewDeploymentCollector ns cl).appStatus
        valType := ValueType.GaugeValue
        val := if A.State = "SHOULD_BE_UP" then F64.ofInt 1 else F64.ofInt 0
        labelValues := [O.ID, O.Name, A.ID, A.Name, A.Zone, FormatBool A.Archived,
          A.Instance.Type_] } ∈ out.ch ∧
      ∀ m ∈ out.ch, m.labelValues[0]? = some O.ID → m.labelValues[2]? = some A.ID →
        m.desc ≠ (NewDeploymentCollector ns cl).instanceStatus ∧
        m.desc ≠ (NewDeploymentCollector ns cl).instanceMemoryTotal ∧
        m.desc ≠ (NewDeploymentCollector ns cl).instanceCPUTotal ∧
        m.desc ≠ (NewDeploymentCollector ns cl).instanceHourlyPriceTotal := by
  refine ⟨_, Collect_eq rng ns cl, ?_, ?_⟩
  · refine List.mem_flatMap.mpr ⟨O, by simp [horgs, Response.items, hO], ?_⟩
    unfold orgBlock
    refine List.mem_append_left _ (List.mem_flatMap.mpr ⟨A, by
      simp [client_New, happs, Response.items, hA], ?_⟩)
    unfold appBlock
    refine List.mem_cons.mpr (Or.inl ?_)
    by_cases h : A.State = "SHOULD_BE_UP" <;> simp [appStatusMetric, Ternary, h]
  · intro m hm h0 h2
    have hnone : ∀ org app, org.ID = O.ID → app.ID = A.ID →
        (NewDeploymentCollector ns cl).client.entry org app = none := by
      intro org app ho ha
      rcases hinst with ⟨e, he⟩ | ⟨all, he, hall⟩
      · simp [Client.entry, client_New, ho, he]
      · simp [Client.entry, client_New, ho, ha, he, hall]
    obtain ⟨org, -, ⟨app, -, hmem⟩ | ⟨addon, -, rfl⟩⟩ :=
      mem_items_flatMap_orgBlock (c := NewDeploymentCollector ns cl) hm
    · rcases mem_appBlock hmem with rfl | ⟨instances, hent, hcase⟩
      · simp [appStatusMetric, NewDeploymentCollector, NewDesc]
      · exfalso
        have hlab : m.labelValues[0]? = some org.ID ∧ m.labelValues[2]? = some app.ID := by
          rcases hcase with ⟨entry, _, rfl⟩ | rfl | rfl | rfl <;>
            simp [instanceStatusMetric, instanceMemoryTotalMetric, instanceCPUTotalMetric,
              instanceHourlyPriceTotalMetric]
        have ho : org.ID = O.ID := by
          have := hlab.1.symm.trans h0
          simpa using this
        have ha : app.ID = A.ID := by
          have := hlab.2.symm.trans h2
          simpa using this
        rw [hnone org app ho ha] at hent
        exact Option.noConfusion hent
    · simp [addonStatusMetric, NewDeploymentCollector, NewDesc]

/-- Witness for [C4]: one organisation with one application, instance fetch failing. -/
theorem C4_no_instance_entry_witness :
    ∃ out, Collect RangeOrder.insertion (NewDeploymentCollector "clevercloud"
        { organisations := Response.payload [{ ID := "O1", Name := "Acme" }]
          applications := fun _ => Response.payload
            [{ ID := "A1", Name := "web", State := "SHOULD_BE_UP", Zone := "par",
               Archived := false, Instance := { Type_ := "pico" } }]
          instances := fun _ => Response.error "instances unavailable"
          addons := fun _ => Response.payload [] }) = some out ∧
      { desc := NewDesc "clevercloud_application_status" "Applications status"
          ["org_id", "org_name", "app_id", "app_name", "region", "archived", "type"]
        valType := ValueType.GaugeValue
        val := F64.ofInt 1
        labelValues := ["O1", "Acme", "A1", "web", "par", "false", "pico"] } ∈ out.ch ∧
      ∀ m ∈ out.ch, m.labelValues[0]? = some "O1" → m.labelValues[2]? = some "A1" →
        m.desc ≠ NewDesc "clevercloud_instance_status" "Instances status"
          ["org_id", "org_name", "app_id", "app_name", "region", "type", "state"] ∧
        m.desc ≠ NewDesc "clevercloud_instance_memory_total" "Instances memory total"
          ["org_id", "org_name", "app_id", "app_name", "region", "type"] ∧
        m.desc ≠ NewDesc "clevercloud_instance_cpu_total" "Instances CPU total"
          ["org_id", "org_name", "app_id", "app_name", "region", "type"] ∧
        m.desc ≠ NewDesc "clevercloud_instance_hourly_price_total" "Instances price total"
          ["org_id", "org_name", "app_id", "app_name", "region", "type"] :=
  C4_no_instance_entry RangeOrder.insertion "clevercloud" _ [{ ID := "O1", Name := "Acme" }]
    { ID := "O1", Name := "Acme" }
    [{ ID := "A1", Name := "web", State := "SHOULD_BE_UP", Zone := "par",
       Archived := false, Instance := { Type_ := "pico" } }]
    { ID := "A1", Name := "web", State := "SHOULD_BE_UP", Zone := "par",
      Archived := false, Instance := { Type_ := "pico" } }
    rfl (by simp) rfl (by simp) (Or.inl ⟨"instances unavailable", rfl⟩)

/-! ## counting by state -/

theorem incr_keys (m : List (String × Int)) (k : String) :
    (incr m k).map Prod.fst =
      if k ∈ m.map Prod.fst then m.map Prod.fst else m.map Prod.fst ++ [k] := by
  induction m with
  | nil => simp [incr]
  | cons p rest ih =>
    obtain ⟨k', n'⟩ := p
    by_cases h : k' = k
    · simp [incr, h]
    · have h' : ¬ k = k' := fun e => h e.symm
      by_cases hk : k ∈ rest.map Prod.fst
      · simp only [incr, h, if_false, List.map_cons, ih, hk, if_true, List.mem_cons, or_true]
      · simp only [incr, h, if_false, List.map_cons, ih, hk, List.mem_cons, h', or_self,
          List.cons_append]

theorem incr_sum (m : List (String × Int)) (k : String) :
    ((incr m k).map Prod.snd).sum = (m.map Prod.snd).sum + 1 := by
  induction m with
  | nil => simp [incr]
  | cons p rest ih =>
    obtain ⟨k', n'⟩ := p
    by_cases h : k' = k
    · simp [incr, h]; ring
    · simp [incr, h, ih]; ring

theorem mem_incr {m : List (String × Int)} {k s : String} {n : Int}
    (hnd : (m.map Prod.fst).Nodup) (h : (s, n) ∈ incr m k) :
    (s ≠ k ∧ (s, n) ∈ m) ∨
      (s = k ∧ ((k, n - 1) ∈ m ∨ (k ∉ m.map Prod.fst ∧ n = 1))) := by
  induction m with
  | nil =>
    simp [incr] at h
    exact Or.inr ⟨h.1, Or.inr ⟨by simp, h.2⟩⟩
  | cons p rest ih =>
    obtain ⟨k', n'⟩ := p
    simp only [List.map_cons, List.nodup_cons] at hnd
    by_cases hk : k' = k
    · subst hk
      simp only [incr, if_true, List.mem_cons, Prod.mk.injEq] at h
      rcases h with ⟨rfl, rfl⟩ | h
      · exact Or.inr ⟨rfl, Or.inl (by simp)⟩
      · have hs : s ≠ k' := by
          rintro rfl
          exact hnd.1 (List.mem_map.mpr ⟨(s, n), h, rfl⟩)
        exact Or.inl ⟨hs, List.mem_cons_of_mem _ h⟩
    · simp only [incr, hk, if_false, List.mem_cons, Prod.mk.injEq] at h
      rcases h with ⟨rfl, rfl⟩ | h
      · exact Or.inl ⟨hk, by simp⟩
      · rcases ih hnd.2 h with ⟨hs, hin⟩ | ⟨hs, hin | ⟨hnot, h1⟩⟩
        · exact Or.inl ⟨hs, List.mem_cons_of_mem _ hin⟩
        · exact Or.inr ⟨hs, Or.inl (List.mem_cons_of_mem _ hin)⟩
        · refine Or.inr ⟨hs, Or.inr ⟨?_, h1⟩⟩
          simp only [List.map_cons, List.mem_cons, not_or]
          exact ⟨fun e => hk e.symm, hnot⟩

theorem Counted.incr {m : List (String × Int)} {l : List String} (h : Counted m l)
    (k : String) : Counted (incr m k) (l ++ [k]) := by
  obtain ⟨hnd, hkeys, hval⟩ := h
  refine ⟨?_, ?_, ?_⟩
  · rw [incr_keys]
    by_cases hk : k ∈ m.map Prod.fst
    · simpa [hk] using hnd
    · simp only [hk, if_false]
      exact List.Nodup.append hnd (List.nodup_singleton k) (by simpa using hk)
  · intro s
    rw [incr_keys]
    by_cases hk : k ∈ m.map Prod.fst
    · simp only [hk, if_true, List.mem_append, List.mem_singleton, hkeys]
      constructor
      · exact Or.inl
      · rintro (h | rfl)
        · exact h
        · exact (hkeys _).mp hk
    · simp only [hk, if_false, List.mem_append, List.mem_singleton, hkeys]
  · intro s n hin
    rcases mem_incr hnd hin with ⟨hs, hin⟩ | ⟨rfl, hin | ⟨hnot, rfl⟩⟩
    · have := hval s n hin
      have hs' : ¬ k = s := fun e => hs e.symm
      simp [List.count_append, List.count_cons, this, hs']
    · have := hval s (n - 1) hin
      simp [List.count_append, List.count_cons]
      omega
    · have hl : s ∉ l := fun hmem => hnot ((hkeys s).mpr hmem)
      simp [List.count_append, List.count_cons, List.count_eq_zero_of_not_mem hl]

theorem Counted.foldl (xs : List String) :
    ∀ (m : List (String × Int)) (l : List String), Counted m l →
      Counted (xs.foldl collector.incr m) (l ++ xs) := by
  induction xs with
  | nil => intro m l h; simpa using h
  | cons x xs ih =>
    intro m l h
    have := ih (collector.incr m x) (l ++ [x]) (h.incr x)
    simpa [List.append_assoc] using this

theorem CountValuesBy_counted {T : Type} (collection : List T) (mapper : T → String) :
    Counted (CountValuesBy collection mapper) (collection.map mapper) := by
  have h0 : Counted [] [] := ⟨by simp, by simp, by simp⟩
  have := Counted.foldl (collection.map mapper) [] [] h0
  simpa [CountValuesBy, List.foldl_map] using this

theorem CountValuesBy_sum {T : Type} (collection : List T) (mapper : T → String) :
    ((CountValuesBy collection mapper).map Prod.snd).sum = (collection.length : Int) := by
  have key : ∀ (xs : List T) (m : List (String × Int)),
      ((xs.foldl (fun result item => incr result (mapper item)) m).map Prod.snd).sum =
        (m.map Prod.snd).sum + (xs.length : Int) := by
    intro xs
    induction xs with
    | nil => intro m; simp
    | cons x xs ih =>
      intro m
      simp only [List.foldl_cons, ih, incr_sum, List.length_cons]
      push_cast
      ring
  simpa [CountValuesBy] using key collection []

theorem appBlock_instanceStatus (rng : RangeOrder) (ns : String) (cl : Client) (org : Organisation)
    (app : Application) :
    (appBlock rng (NewDeploymentCollector ns cl) org app).filter
        (fun m => decide (m.desc = (NewDeploymentCollector ns cl).instanceStatus)) =
      match cl.entry org app with
      | none => []
      | some instances =>
        (rng.visit org app (CountValuesBy instances (fun item => item.State))).map
          (instanceStatusMetric (NewDeploymentCollector ns cl) org app) := by
  unfold appBlock
  rw [client_New]
  cases cl.entry org app with
  | none => simp [appStatusMetric, NewDeploymentCollector, NewDesc]
  | some instances =>
    simp [appStatusMetric, instanceBlock, instanceStatusMetric, instanceMemoryTotalMetric,
      instanceCPUTotalMetric, instanceHourlyPriceTotalMetric, NewDeploymentCollector,
      NewDesc, List.filter_cons, List.filter_append, List.filter_map, Function.comp_def]

theorem addonBlock_instanceStatus (ns : String) (cl : Client) (org : Organisation)
    (addon : AddonView) :
    (addonBlock (NewDeploymentCollector ns cl) org addon).filter
        (fun m => decide (m.desc = (NewDeploymentCollector ns cl).instanceStatus)) = [] := by
  simp [addonBlock, addonStatusMetric, NewDeploymentCollector, NewDesc]

/-- [C5] The instance-status metrics on the channel are, in order, those of each listed
application whose identifier has an entry in the successfully fetched instance map of its
organisation: one metric per entry of the count-by-state map of the entry's instance
list, in the order in which `range` visits the map, valued `float64(count)` and labelled
with the state. Whatever that order, the visited entries have each state at most once,
hold a state exactly when some instance is in it, hold for it the number of instances in
that state (hence never `0`), and their counts add up to the length of the instance list;
for a list shorter than `2 ^ 53` the conversions `float64(count)` are exact, so the
emitted values themselves add up to the length. -/
theorem C5_instance_status (rng : RangeOrder) (ns : String) (cl : Client) :
    ∃ out, Collect rng (NewDeploymentCollector ns cl) = some out ∧
      out.ch.filter (fun m => decide (m.desc = (NewDeploymentCollector ns cl).instanceStatus)) =
        cl.organisations.items.flatMap (fun org =>
          (cl.applications org.ID).items.flatMap (fun app =>
            match cl.entry org app with
            | none => []
            | some instances =>
              (rng.visit org app (CountValuesBy instances (fun item => item.State))).map
                (fun entry =>
                  { desc := (NewDeploymentCollector ns cl).instanceStatus
                    valType := ValueType.GaugeValue
                    val := F64.ofInt entry.2
                    labelValues := [org.ID, org.Name, app.ID, app.Name, app.Zone,
                      app.Instance.Type_, entry.1] }))) ∧
      ∀ (org : Organisation) (app : Application) (instances : List SuperNovaInstanceView),
        ((rng.visit org app (CountValuesBy instances (fun item => item.State))).map
          Prod.fst).Nodup ∧
        (∀ s n,
          (s, n) ∈ rng.visit org app (CountValuesBy instances (fun item => item.State)) ↔
          s ∈ instances.map (fun item => item.State) ∧
            n = ((instances.map (fun item => item.State)).count s : Int)) ∧
        (∀ s n,
          (s, n) ∈ rng.visit org app (CountValuesBy instances (fun item => item.State)) →
          0 < n) ∧
        ((rng.visit org app (CountValuesBy instances (fun item => item.State))).map
          Prod.snd).sum = (instances.length : Int) ∧
        (instances.length < 2 ^ 53 →
          ((rng.visit org app (CountValuesBy instances (fun item => item.State))).map
            (fun entry => F64.toRat (F64.ofInt entry.2))).sum = (instances.length : ℚ)) := by
  refine ⟨_, Collect_eq rng ns cl, ?_, ?_⟩
  · simp only [filter_flatMap_eq, orgBlock, List.filter_append, appBlock_instanceStatus,
      addonBlock_instanceStatus, client_New, flatMap_empty, List.append_nil]
    rfl
  · intro org app instances
    have hperm := rng.perm org app (CountValuesBy instances (fun item => item.State))
    obtain ⟨hnd, hkeys, hval⟩ := CountValuesBy_counted instances (fun item => item.State)
    have hiff : ∀ s n,
        (s, n) ∈ rng.visit org app (CountValuesBy instances (fun item => item.State)) ↔
        s ∈ instances.map (fun item => item.State) ∧
          n = ((instances.map (fun item => item.State)).count s : Int) := by
      intro s n
      rw [hperm.mem_iff]
      constructor
      · intro h
        exact ⟨(hkeys s).mp (List.mem_map.mpr ⟨(s, n), h, rfl⟩), hval s n h⟩
      · rintro ⟨hs, rfl⟩
        obtain ⟨⟨s', n'⟩, hin, hs'⟩ := List.mem_map.mp ((hkeys s).mpr hs)
        simp only at hs'
        subst hs'
        rw [← hval s' n' hin]
        exact hin
    have hsum : ((rng.visit org app (CountValuesBy instances (fun item => item.State))).map
        Prod.snd).sum = (instances.length : Int) := by
      rw [(hperm.map Prod.snd).sum_eq]
      exact CountValuesBy_sum instances _
    refine ⟨(hperm.map Prod.fst).nodup_iff.mpr hnd, hiff, ?_, hsum, ?_⟩
    · intro s n h
      obtain ⟨hs, rfl⟩ := (hiff s n).mp h
      exact_mod_cast List.count_pos_iff.mpr hs
    · intro hlen
      have hexact : ∀ entry ∈ rng.visit org app
          (CountValuesBy instances (fun item => item.State)),
          F64.toRat (F64.ofInt entry.2) = ((entry.2 : Int) : ℚ) := by
        rintro ⟨s, n⟩ hin
        have hn := ((hiff s n).mp hin).2
        have hle : (instances.map (fun item => item.State)).count s ≤ instances.length := by
          simpa using List.count_le_length s (instances.map (fun item => item.State))
        simp only [hn]
        rw [toRat_ofInt_natCast _ (lt_of_le_of_lt hle hlen)]
        simp
      rw [List.map_congr_left hexact]
      have hcast : ∀ l : List (String × Int),
          (l.map (fun entry => ((entry.2 : Int) : ℚ))).sum =
            (((l.map Prod.snd).sum : Int) : ℚ) := by
        intro l
        induction l with
        | nil => simp
        | cons p rest ih => simp [ih]
      rw [hcast, hsum]
      simp

theorem appBlock_total (rng : RangeOrder) (ns : String) (cl : Client) (org : Organisation)
    (app : Application) :
    (appBlock rng (NewDeploymentCollector ns cl) org app).filter
        (fun m => decide (m.desc = (NewDeploymentCollector ns cl).instanceMemoryTotal)) =
      (match cl.entry org app with
      | none => []
      | some instances =>
        [instanceMemoryTotalMetric (NewDeploymentCollector ns cl) org app instances]) ∧
    (appBlock rng (NewDeploymentCollector ns cl) org app).filter
        (fun m => decide (m.desc = (NewDeploymentCollector ns cl).instanceCPUTotal)) =
      (match cl.entry org app with
      | none => []
      | some instances =>
        [instanceCPUTotalMetric (NewDeploymentCollector ns cl) org app instances]) ∧
    (appBlock rng (NewDeploymentCollector ns cl) org app).filter
        (fun m => decide (m.desc = (NewDeploymentCollector ns cl).instanceHourlyPriceTotal)) =
      (match cl.entry org app with
      | none => []
      | some instances =>
        [instanceHourlyPriceTotalMetric (NewDeploymentCollector ns cl) org app instances]) := by
  unfold appBlock
  rw [client_New]
  cases cl.entry org app with
  | none => simp [appStatusMetric, NewDeploymentCollector, NewDesc]
  | some instances =>
    simp [appStatusMetric, instanceBlock, instanceStatusMetric, instanceMemoryTotalMetric,
      instanceCPUTotalMetric, instanceHourlyPriceTotalMetric, NewDeploymentCollector,
      NewDesc, List.filter_cons, List.filter_append, List.filter_map, Function.comp_def]

theorem addonBlock_total (ns : String) (cl : Client) (org : Organisation)
    (addon : AddonView) :
    (addonBlock (NewDeploymentCollector ns cl) org addon).filter
        (fun m => decide (m.desc = (NewDeploymentCollector ns cl).instanceMemoryTotal)) = [] ∧
    (addonBlock (NewDeploymentCollector ns cl) org addon).filter
        (fun m => decide (m.desc = (NewDeploymentCollector ns cl).instanceCPUTotal)) = [] ∧
    (addonBlock (NewDeploymentCollector ns cl) org addon).filter
        (fun m => decide (m.desc = (NewDeploymentCollector ns cl).instanceHourlyPriceTotal)) =
      [] := by
  simp [addonBlock, addonStatusMetric, NewDeploymentCollector, NewDesc]

/-- [C6, counterexample] In the scenario with each price the binary64 nearest to `0.1`,
the single instance-hourly-price-total metric has the value `5404319552844596 * 2^-54`
(`0.30000000000000004`), which is not the binary64 nearest to `0.3`
(`5404319552844595 * 2^-54`): it lies above `3/10`, four times as far from it as that
datum lies below. With each price the binary32 nearest to `0.1` the value is
`40265319 * 2^-27`, which is neither the binary64 nor the binary32 nearest to `0.3`. -/
theorem C6_price_total_not_three_tenths :
    (∃ out, Collect RangeOrder.insertion (NewDeploymentCollector "clevercloud"
        (scenario (F64.round false 1 10))) = some out ∧
      (out.ch.filter (fun m => decide (m.desc =
          (NewDeploymentCollector "clevercloud"
            (scenario (F64.round false 1 10))).instanceHourlyPriceTotal))).map Metric.val =
        [F64.finite false 5404319552844596 (-54)] ∧
      F64.finite false 5404319552844596 (-54) ≠ F64.round false 3 10 ∧
      F64.round false 3 10 = F64.finite false 5404319552844595 (-54) ∧
      F64.toRat (F64.finite false 5404319552844596 (-54)) - 3 / 10 =
        4 * (3 / 10 - F64.toRat (F64.finite false 5404319552844595 (-54)))) ∧
    (∃ out, Collect RangeOrder.insertion (NewDeploymentCollector "clevercloud"
        (scenario (F64.round32 false 1 10))) = some out ∧
      (out.ch.filter (fun m => decide (m.desc =
          (NewDeploymentCollector "clevercloud"
            (scenario (F64.round32 false 1 10))).instanceHourlyPriceTotal))).map Metric.val =
        [F64.finite false (40265319 * 2 ^ 27) (-54)] ∧
      F64.finite false (40265319 * 2 ^ 27) (-54) ≠ F64.round false 3 10 ∧
      F64.finite false (40265319 * 2 ^ 27) (-54) ≠ F64.round32 false 3 10) := by
  refine ⟨⟨_, rfl, by decide, by decide, by decide, ?_⟩,
    ⟨_, rfl, by decide, by decide, by decide⟩⟩
  simp only [F64.toRat]
  norm_num

/-- The three instance totals on the channel, in closed form. -/
theorem Collect_totals (rng : RangeOrder) (ns : String) (cl : Client) :
    ∃ out, Collect rng (NewDeploymentCollector ns cl) = some out ∧
      out.ch.filter
          (fun m => decide (m.desc = (NewDeploymentCollector ns cl).instanceMemoryTotal)) =
        cl.organisations.items.flatMap (fun org =>
          (cl.applications org.ID).items.flatMap (fun app =>
            match cl.entry org app with
            | none => []
            | some instances =>
              [{ desc := (NewDeploymentCollector ns cl).instanceMemoryTotal
                 valType := ValueType.GaugeValue
                 val := SumBy instances (fun item => F64.ofInt item.Flavor.Mem)
                 labelValues := [org.ID, org.Name, app.ID, app.Name, app.Zone,
                   app.Instance.Type_] }])) ∧
      out.ch.filter
          (fun m => decide (m.desc = (NewDeploymentCollector ns cl).instanceCPUTotal)) =
        cl.organisations.items.flatMap (fun org =>
          (cl.applications org.ID).items.flatMap (fun app =>
            match cl.entry org app with
            | none => []
            | some instances =>
              [{ desc := (NewDeploymentCollector ns cl).instanceCPUTotal
                 valType := ValueType.GaugeValue
                 val := SumBy instances (fun item => F64.ofInt item.Flavor.Cpus)
                 labelValues := [org.ID, org.Name, app.ID, app.Name, app.Zone,
                   app.Instance.Type_] }])) ∧
      out.ch.filter
          (fun m => decide (m.desc =
            (NewDeploymentCollector ns cl).instanceHourlyPriceTotal)) =
        cl.organisations.items.flatMap (fun org =>
          (cl.applications org.ID).items.flatMap (fun app =>
            match cl.entry org app with
            | none => []
            | some instances =>
              [{ desc := (NewDeploymentCollector ns cl).instanceHourlyPriceTotal
                 valType := ValueType.GaugeValue
                 val := SumBy instances (fun item => item.Flavor.Price)
                 labelValues := [org.ID, org.Name, app.ID, app.Name, app.Zone,
                   app.Instance.Type_] }])) := by
  refine ⟨_, Collect_eq rng ns cl, ?_, ?_, ?_⟩
  · simp only [filter_flatMap_eq, orgBlock, List.filter_append, (appBlock_total rng ns cl _ _).1,
      (addonBlock_total ns cl _ _).1, client_New, flatMap_empty, List.append_nil]
    rfl
  · simp only [filter_flatMap_eq, orgBlock, List.filter_append,
      (appBlock_total rng ns cl _ _).2.1, (addonBlock_total ns cl _ _).2.1, client_New,
      flatMap_empty, List.append_nil]
    rfl
  · simp only [filter_flatMap_eq, orgBlock, List.filter_append,
      (appBlock_total rng ns cl _ _).2.2, (addonBlock_total ns cl _ _).2.2, client_New,
      flatMap_empty, List.append_nil]
    rfl

/-- [C6, amended] For every listed application whose identifier has an entry in the
successfully fetched instance map (an empty list included), `Collect` sends exactly one
instance-memory-total, one instance-cpu-total and one instance-hourly-price-total metric,
and none for the other applications. Their values are the binary64 accumulations that
`lo.SumBy` computes, starting from `0` and adding `float64(Flavor.Mem)`,
`float64(Flavor.Cpus)` and `Flavor.Price` of the instances from first to last, each
addition rounded; the accumulation over an empty list is `0`. Over nonnegative integers
whose exact total is below `2 ^ 53` (memory, cpus) the accumulation is exact: it is
`float64` of the total and denotes the total. In the scenario with each price the binary64
nearest to `0.1` there is one metric of each kind and the three totals are
`float64(1536)`, `float64(3)` and `5404319552844596 * 2^-54` (`0.30000000000000004`). -/
theorem C6_instance_totals (rng : RangeOrder) (ns : String) (cl : Client) :
    (∃ out, Collect rng (NewDeploymentCollector ns cl) = some out ∧
      out.ch.filter
          (fun m => decide (m.desc = (NewDeploymentCollector ns cl).instanceMemoryTotal)) =
        cl.organisations.items.flatMap (fun org =>
          (cl.applications org.ID).items.flatMap (fun app =>
            match cl.entry org app with
            | none => []
            | some instances =>
              [{ desc := (NewDeploymentCollector ns cl).instanceMemoryTotal
                 valType := ValueType.GaugeValue
                 val := SumBy instances (fun item => F64.ofInt item.Flavor.Mem)
                 labelValues := [org.ID, org.Name, app.ID, app.Name, app.Zone,
                   app.Instance.Type_] }])) ∧
      out.ch.filter
          (fun m => decide (m.desc = (NewDeploymentCollector ns cl).instanceCPUTotal)) =
        cl.organisations.items.flatMap (fun org =>
          (cl.applications org.ID).items.flatMap (fun app =>
            match cl.entry org app with
            | none => []
            | some instances =>
              [{ desc := (NewDeploymentCollector ns cl).instanceCPUTotal
                 valType := ValueType.GaugeValue
                 val := SumBy instances (fun item => F64.ofInt item.Flavor.Cpus)
                 labelValues := [org.ID, org.Name, app.ID, app.Name, app.Zone,
                   app.Instance.Type_] }])) ∧
      out.ch.filter
          (fun m => decide (m.desc =
            (NewDeploymentCollector ns cl).instanceHourlyPriceTotal)) =
        cl.organisations.items.flatMap (fun org =>
          (cl.applications org.ID).items.flatMap (fun app =>
            match cl.entry org app with
            | none => []
            | some instances =>
              [{ desc := (NewDeploymentCollector ns cl).instanceHourlyPriceTotal
                 valType := ValueType.GaugeValue
                 val := SumBy instances (fun item => item.Flavor.Price)
                 labelValues := [org.ID, org.Name, app.ID, app.Name, app.Zone,
                   app.Instance.Type_] }]))) ∧
    (∀ f : SuperNovaInstanceView → F64, SumBy [] f = F64.finite false 0 0) ∧
    (∀ (instances : List SuperNovaInstanceView) (item : SuperNovaInstanceView)
        (f : SuperNovaInstanceView → F64),
      SumBy (instances ++ [item]) f = F64.add (SumBy instances f) (f item)) ∧
    (∀ (instances : List SuperNovaInstanceView) (g : SuperNovaInstanceView → Int),
      (∀ item ∈ instances, 0 ≤ g item) → (instances.map g).sum < 2 ^ 53 →
        SumBy instances (fun item => F64.ofInt (g item)) = F64.ofInt (instances.map g).sum ∧
        F64.toRat (SumBy instances (fun item => F64.ofInt (g item))) =
          (((instances.map g).sum : Int) : ℚ)) ∧
    ∃ out, Collect rng (NewDeploymentCollector "clevercloud"
        (scenario (F64.round false 1 10))) = some out ∧
      (out.ch.filter (fun m => decide (m.desc = (NewDeploymentCollector "clevercloud"
          (scenario (F64.round false 1 10))).instanceMemoryTotal))).map Metric.val =
        [F64.ofInt 1536] ∧
      (out.ch.filter (fun m => decide (m.desc = (NewDeploymentCollector "clevercloud"
          (scenario (F64.round false 1 10))).instanceCPUTotal))).map Metric.val =
        [F64.ofInt 3] ∧
      (out.ch.filter (fun m => decide (m.desc = (NewDeploymentCollector "clevercloud"
          (scenario (F64.round false 1 10))).instanceHourlyPriceTotal))).map Metric.val =
        [F64.finite false 5404319552844596 (-54)] := by
  refine ⟨Collect_totals rng ns cl, fun _ => rfl, ?_, ?_, ?_⟩
  · intro instances item f
    simp [SumBy, List.foldl_append]
  · intro instances g hnn hlt
    have hsum := SumBy_ofInt instances g hnn hlt
    refine ⟨hsum, ?_⟩
    have h0 : 0 ≤ (instances.map g).sum := List.sum_nonneg (by
      intro v hv
      obtain ⟨y, hy, rfl⟩ := List.mem_map.mp hv
      exact hnn y hy)
    obtain ⟨k, hk⟩ := Int.eq_ofNat_of_zero_le h0
    rw [hsum, hk]
    have hk53 : k < 2 ^ 53 := by
      have : ((k : Nat) : Int) < 2 ^ 53 := by rw [← hk]; exact hlt
      exact_mod_cast this
    rw [toRat_ofInt_natCast k hk53]
    simp
  · obtain ⟨out, hout, hmem, hcpu, hprice⟩ :=
      Collect_totals rng "clevercloud" (scenario (F64.round false 1 10))
    refine ⟨out, hout, ?_, ?_, ?_⟩
    · rw [hmem]; decide
    · rw [hcpu]; decide
    · rw [hprice]; decide

theorem appBlock_addonStatus (rng : RangeOrder) (ns : String) (cl : Client) (org : Organisation)
    (app : Application) :
    (appBlock rng (NewDeploymentCollector ns cl) org app).filter
        (fun m => decide (m.desc = (NewDeploymentCollector ns cl).addonStatus)) = [] := by
  apply List.filter_eq_nil_iff.mpr
  intro m hm
  simpa using appBlock_not_addon rng ns cl org app m hm

/-- [C8] The addon-status metrics on the channel are, in order, one per addon of the
successfully fetched addon list of each organisation, with value `float64(1)` (the datum
`1.0`) and label values organisation id, organisation name, addon id, addon name, addon
region. The list is determined by the organisation and addon answers alone: the
application and instance answers, failed or not, do not enter it. -/
theorem C8_addon_status (rng : RangeOrder) (ns : String) (orgs : Response (List Organisation))
    (apps : String → Response (List Application)) (insts : String → Response InstanceMap)
    (addons : String → Response (List AddonView)) :
    ∃ out, Collect rng (NewDeploymentCollector ns
        { organisations := orgs, applications := apps, instances := insts,
          addons := addons }) = some out ∧
      out.ch.filter (fun m => decide (m.desc = NewDesc (ns ++ "_addon_status") "Addons status"
          ["org_id", "org_name", "addon_id", "addon_name", "region"])) =
        orgs.items.flatMap (fun org =>
          (addons org.ID).items.map (fun addon =>
            { desc := NewDesc (ns ++ "_addon_status") "Addons status"
                ["org_id", "org_name", "addon_id", "addon_name", "region"]
              valType := ValueType.GaugeValue
              val := F64.ofInt 1
              labelValues := [org.ID, org.Name, addon.ID, addon.Name, addon.Region] })) ∧
      F64.ofInt 1 = F64.finite false (2 ^ 52) (-52) := by
  refine ⟨_, Collect_eq rng ns _, ?_, by decide⟩
  have hd : NewDesc (ns ++ "_addon_status") "Addons status"
      ["org_id", "org_name", "addon_id", "addon_name", "region"] =
      (NewDeploymentCollector ns
        { organisations := orgs, applications := apps, instances := insts,
          addons := addons }).addonStatus := rfl
  rw [hd]
  simp only [filter_flatMap_eq, orgBlock, List.filter_append, appBlock_addonStatus,
    client_New, flatMap_empty, List.nil_append]
  congr 1
  funext org
  simp [addonBlock, addonStatusMetric, flatMap_single, List.filter_map, Function.comp_def]

/-- [C10, evaluation] One organisation whose instance, application and addon fetches all
fail: the value logged for the instance failure is the nil error (the variable `err` of
line 88), while the application and addon failures are logged with their own errors. -/
theorem C10_instance_error_logged_as_nil :
    Collect RangeOrder.insertion (NewDeploymentCollector "clevercloud"
        { organisations := Response.payload [{ ID := "O1", Name := "Acme" }]
          applications := fun _ => Response.error "applications unavailable"
          instances := fun _ => Response.error "instances unavailable"
          addons := fun _ => Response.error "addons unavailable" }) =
      some { ch := [],
             log := [none, some "applications unavailable", some "addons unavailable"] } := by
  rfl

/-- [C7] Every metric on the channel belongs to an organisation of the organisation
list whose identifier and name are its first two label values. An application-status
metric continues with the fields of an application listed under that organisation, an
addon-status metric with the fields of an addon listed under it, and an instance-derived
metric continues with identifier, name, zone and instance type of an application listed
under it whose identifier has an entry in that organisation's instance map. -/
theorem C7_owner_labels (rng : RangeOrder) (ns : String) (cl : Client) :
    ∃ out, Collect rng (NewDeploymentCollector ns cl) = some out ∧
      ∀ m ∈ out.ch, ∃ org ∈ cl.organisations.items,
        m.labelValues.take 2 = [org.ID, org.Name] ∧
        ((m.desc = (NewDeploymentCollector ns cl).appStatus ∧
            ∃ app ∈ (cl.applications org.ID).items,
              m.labelValues.drop 2 =
                [app.ID, app.Name, app.Zone, FormatBool app.Archived, app.Instance.Type_]) ∨
          (m.desc = (NewDeploymentCollector ns cl).addonStatus ∧
            ∃ addon ∈ (cl.addons org.ID).items,
              m.labelValues.drop 2 = [addon.ID, addon.Name, addon.Region]) ∨
          ((m.desc = (NewDeploymentCollector ns cl).instanceStatus ∨
              m.desc = (NewDeploymentCollector ns cl).instanceMemoryTotal ∨
              m.desc = (NewDeploymentCollector ns cl).instanceCPUTotal ∨
              m.desc = (NewDeploymentCollector ns cl).instanceHourlyPriceTotal) ∧
            ∃ app ∈ (cl.applications org.ID).items, ∃ instances,
              cl.entry org app = some instances ∧
              (m.labelValues.drop 2).take 4 =
                [app.ID, app.Name, app.Zone, app.Instance.Type_])) := by
  refine ⟨_, Collect_eq rng ns cl, ?_⟩
  intro m hm
  obtain ⟨org, horg, ⟨app, happ, hmem⟩ | ⟨addon, haddon, rfl⟩⟩ :=
    mem_items_flatMap_orgBlock (c := NewDeploymentCollector ns cl) hm
  · refine ⟨org, horg, ?_⟩
    rcases mem_appBlock hmem with rfl | ⟨instances, hent, hcase⟩
    · exact ⟨rfl, Or.inl ⟨rfl, app, happ, rfl⟩⟩
    · rcases hcase with ⟨entry, _, rfl⟩ | rfl | rfl | rfl
      · exact ⟨rfl, Or.inr (Or.inr ⟨Or.inl rfl, app, happ, instances, hent, rfl⟩)⟩
      · exact ⟨rfl, Or.inr (Or.inr ⟨Or.inr (Or.inl rfl), app, happ, instances, hent, rfl⟩)⟩
      · exact ⟨rfl, Or.inr (Or.inr
          ⟨Or.inr (Or.inr (Or.inl rfl)), app, happ, instances, hent, rfl⟩)⟩
      · exact ⟨rfl, Or.inr (Or.inr
          ⟨Or.inr (Or.inr (Or.inr rfl)), app, happ, instances, hent, rfl⟩)⟩
  · exact ⟨org, horg, rfl, Or.inr (Or.inl ⟨rfl, addon, haddon, rfl⟩)⟩

/-- [C9] `Collect` returns normally on every combination of fetch results (no call of
`MustNewConstMetric` panics, no error leaves the call), and every metric it sent pairs
the label names of its descriptor, in the descriptor's order, with as many label values,
each taken from the fetched data the name stands for: 7 for application status (fields of
an organisation of the list and of an application listed under it), 5 for addon status
(fields of an organisation and of an addon listed under it), 7 for instance status and 6
for each of the three instance totals (fields of an organisation and of an application
listed under it that has an entry in the organisation's instance map; for instance
status also a state visited in the count-by-state map of that entry). -/
theorem C9_never_panics (rng : RangeOrder) (ns : String) (cl : Client) :
    ∃ out, Collect rng (NewDeploymentCollector ns cl) = some out ∧
      ∀ m ∈ out.ch, m.labelValues.length = m.desc.variableLabels.length ∧
        ((m.desc = (NewDeploymentCollector ns cl).appStatus ∧ m.labelValues.length = 7 ∧
            ∃ org ∈ cl.organisations.items, ∃ app ∈ (cl.applications org.ID).items,
              m.desc.variableLabels.zip m.labelValues =
                [("org_id", org.ID), ("org_name", org.Name), ("app_id", app.ID),
                 ("app_name", app.Name), ("region", app.Zone),
                 ("archived", FormatBool app.Archived), ("type", app.Instance.Type_)]) ∨
          (m.desc = (NewDeploymentCollector ns cl).addonStatus ∧ m.labelValues.length = 5 ∧
            ∃ org ∈ cl.organisations.items, ∃ addon ∈ (cl.addons org.ID).items,
              m.desc.variableLabels.zip m.labelValues =
                [("org_id", org.ID), ("org_name", org.Name), ("addon_id", addon.ID),
                 ("addon_name", addon.Name), ("region", addon.Region)]) ∨
          (m.desc = (NewDeploymentCollector ns cl).instanceStatus ∧
            m.labelValues.length = 7 ∧
            ∃ org ∈ cl.organisations.items, ∃ app ∈ (cl.applications org.ID).items,
              ∃ instances, cl.entry org app = some instances ∧
              ∃ entry ∈ rng.visit org app (CountValuesBy instances (fun item => item.State)),
                m.desc.variableLabels.zip m.labelValues =
                  [("org_id", org.ID), ("org_name", org.Name), ("app_id", app.ID),
                   ("app_name", app.Name), ("region", app.Zone),
                   ("type", app.Instance.Type_), ("state", entry.1)]) ∨
          ((m.desc = (NewDeploymentCollector ns cl).instanceMemoryTotal ∨
              m.desc = (NewDeploymentCollector ns cl).instanceCPUTotal ∨
              m.desc = (NewDeploymentCollector ns cl).instanceHourlyPriceTotal) ∧
            m.labelValues.length = 6 ∧
            ∃ org ∈ cl.organisations.items, ∃ app ∈ (cl.applications org.ID).items,
              ∃ instances, cl.entry org app = some instances ∧
                m.desc.variableLabels.zip m.labelValues =
                  [("org_id", org.ID), ("org_name", org.Name), ("app_id", app.ID),
                   ("app_name", app.Name), ("region", app.Zone),
                   ("type", app.Instance.Type_)])) := by
  refine ⟨_, Collect_eq rng ns cl, ?_⟩
  intro m hm
  obtain ⟨org, horg, ⟨app, happ, hmem⟩ | ⟨addon, haddon, rfl⟩⟩ :=
    mem_items_flatMap_orgBlock (c := NewDeploymentCollector ns cl) hm
  · rcases mem_appBlock hmem with rfl | ⟨instances, hent, ⟨entry, hin, rfl⟩ | rfl | rfl | rfl⟩
    · exact ⟨rfl, Or.inl ⟨rfl, rfl, org, horg, app, happ, rfl⟩⟩
    · exact ⟨rfl, Or.inr (Or.inr (Or.inl
        ⟨rfl, rfl, org, horg, app, happ, instances, hent, entry, hin, rfl⟩))⟩
    · exact ⟨rfl, Or.inr (Or.inr (Or.inr
        ⟨Or.inl rfl, rfl, org, horg, app, happ, instances, hent, rfl⟩))⟩
    · exact ⟨rfl, Or.inr (Or.inr (Or.inr
        ⟨Or.inr (Or.inl rfl), rfl, org, horg, app, happ, instances, hent, rfl⟩))⟩
    · exact ⟨rfl, Or.inr (Or.inr (Or.inr
        ⟨Or.inr (Or.inr rfl), rfl, org, horg, app, happ, instances, hent, rfl⟩))⟩
  · exact ⟨rfl, Or.inr (Or.inl ⟨rfl, rfl, org, horg, addon, haddon, rfl⟩)⟩

end collector
